import Mathlib

/-!
# Verification of the import-hacking-fixer core engine

A shallow embedding of `import_hacking_fixer/core.py`: the module classifier,
the import collection and normalization, the sorted/deduplicated block builder
(`process_imports`), the block locator (`find_import_block`), the block rewriter
(`rewrite_imports`), and the per-file driver (`process_file`).

Modelling conventions:
* Python strings are Lean `String`s; all character-level operations are carried
  out on `String.data` (`List Char`) with structural recursion, so that every
  definition evaluates inside the kernel.  Python's `str.lower` and
  `str.strip`/whitespace handling are modelled at ASCII precision, which covers
  every module name and source line the tool manipulates.
* Python sets of module names are `List String` with membership tests, matching
  the truth value of `in` on a `set` of strings.
* Python's stable `sorted(key=...)` is modelled by Mathlib's stable
  `List.insertionSort` over the non-strict comparison of the same keys.
* The `ast` layer is modelled by `PyNode`: one value per `ast.Import` /
  `ast.ImportFrom` statement, in the order `ast.walk` yields them.
* File I/O, the `process_docstrings` collaborator (a different module, outside
  the import engine) and the write outcome are inputs of `process_file`,
  mirroring the values the Python code obtains from those calls.
-/

/-- Code points of a character, as compared by Python string comparison. -/
def charLtB (a b : Char) : Bool := decide (a < b)

/-- Lexicographic strict comparison of character lists: Python `<` on `str`. -/
def strLtB : List Char → List Char → Bool
  | [], [] => false
  | [], _ :: _ => true
  | _ :: _, [] => false
  | a :: as, b :: bs =>
    if charLtB a b then true
    else if charLtB b a then false
    else strLtB as bs

/-- Python `str.strip()` (ASCII whitespace). -/
def pyStripChars (l : List Char) : List Char :=
  ((l.dropWhile Char.isWhitespace).reverse.dropWhile Char.isWhitespace).reverse

/-- Helper for `pySplitWs`: accumulate the current word (reversed). -/
def pySplitWsAux : List Char → List Char → List (List Char)
  | [], acc => if acc = [] then [] else [acc.reverse]
  | c :: cs, acc =>
    if c.isWhitespace then
      if acc = [] then pySplitWsAux cs []
      else acc.reverse :: pySplitWsAux cs []
    else pySplitWsAux cs (c :: acc)

/-- Python `str.split()` with no argument: maximal runs of non-whitespace. -/
def pySplitWs (l : List Char) : List (List Char) := pySplitWsAux l []

/-- Python `needle in haystack` on strings (substring containment). -/
def hasSubstrB (hay needle : List Char) : Bool :=
  if needle.isPrefixOf hay then true
  else match hay with
    | [] => false
    | _ :: t => hasSubstrB t needle

/-- Python `module.split('.', 1)[0]`: the text before the first dot. -/
def firstSegment (s : String) : String := ⟨s.data.takeWhile (· ≠ '.')⟩

/-- Python `module.split('.', 1)[1]`: the text after the first dot. -/
def restAfterDot (s : String) : String := ⟨(s.data.dropWhile (· ≠ '.')).tail⟩

/-- Python `'.' in name`. -/
def hasDot (s : String) : Bool := s.data.any (· == '.')

/-- Model of `classify_import` from `core.py`: categorize a module name by its first
dotted segment, checking the stdlib set first, then the project set. -/
def classify_import (module : String) (stdlib project_pkgs : List String) : String :=
  let root := if module = "" then "" else firstSegment module
  if stdlib.contains root then "stdlib"
  else if project_pkgs.contains root then "project"
  else "third_party"

/-- One name in an import statement: `ast.alias` (name plus optional `as`). -/
structure PAlias where
  name : String
  asname : Option String
deriving DecidableEq

/-- An import statement as parsed by `ast`: `ast.Import` or `ast.ImportFrom`
(with its relative `level` and optional source module), in `ast.walk` order. -/
inductive PyNode
  | imp (lineno : Nat) (names : List PAlias)
  | impFrom (lineno : Nat) (level : Nat) (module : Option String) (names : List PAlias)
deriving DecidableEq

/-- An entry of `imports_list` in `process_imports`: the tuple
`(category, module, name, import_type)`. -/
structure ImpItem where
  cat : String
  module : String
  name : String
  itype : String
deriving DecidableEq

/-- The `special_cases` set hard-coded in `process_imports`. -/
def specialCases : List String :=
  ["importlib.util", "importlib.metadata", "typing.Dict", "typing.List",
   "typing.Set", "typing.Tuple", "typing.Optional", "typing.Iterable",
   "typing.Iterator", "collections.defaultdict", "pathlib.Path"]

/-- Python `', '.join(names)`. -/
def joinComma : List String → String
  | [] => ""
  | [x] => x
  | x :: xs => x ++ ", " ++ joinComma xs

/-- Model of `normalize_import` from `core.py`: render one import statement
(`module` empty means a plain `import`, otherwise a `from` import). -/
def normalize_import (module : String) (names : List String) : String :=
  if module = "" then "import " ++ joinComma names
  else "from " ++ module ++ " import " ++ joinComma names

/-- Model of `import_normalize` from `core.py` (hacking's comparison projection):
rewrite a single-name non-future `from x import y` line as `import x.y`
for alphabetical comparison; other lines are returned unchanged.  The Python
code indexes `split_line` after the guards have ensured enough tokens exist;
out-of-range reads are modelled by an empty default. -/
def import_normalize (line : String) : String :=
  let split_line := pySplitWs line.data
  if hasSubstrB line.data "import".data && "from ".data.isPrefixOf line.data &&
      !(line.data.any (· == ',')) &&
      split_line.getD 2 [] == "import".data &&
      split_line.getD 3 [] != "*".data &&
      split_line.getD 1 [] != "__future__".data &&
      (split_line.length == 4 || (split_line.length == 6 && split_line.getD 4 [] == "as".data)) then
    "import " ++ ⟨split_line.getD 1 []⟩ ++ "." ++ ⟨split_line.getD 3 []⟩
  else line

/-- Items contributed by one AST node to `imports_list`, exactly as the
collection loop of `process_imports` appends them. -/
def collectItems (stdlib pkgs : List String) : PyNode → List ImpItem
  | .imp _ names =>
    names.flatMap fun al =>
      let name := al.name
      if name ∈ specialCases then
        [⟨classify_import (firstSegment name) stdlib pkgs, "", name, "import"⟩]
      else if hasDot name &&
          (stdlib.contains (firstSegment name) || pkgs.contains (firstSegment name)) then
        [⟨classify_import (firstSegment name) stdlib pkgs, firstSegment name,
          restAfterDot name, "from"⟩]
      else
        [⟨classify_import (firstSegment name) stdlib pkgs, "", name, "import"⟩]
  | .impFrom _ level module names =>
    if level ≠ 0 then []
    else if names.any (fun al => al.name == "*") then []
    else
      let m := module.getD ""
      names.map fun al => ⟨classify_import m stdlib pkgs, m, al.name, "from"⟩

/-- Warnings contributed by one AST node, exactly as the collection loop of
`process_imports` appends them. -/
def collectWarnings (stdlib pkgs : List String) : PyNode → List (Nat × String)
  | .imp lineno names =>
    (if names.length > 1 then [(lineno, "H301: one import per line")] else []) ++
    names.flatMap fun al =>
      let name := al.name
      if name ∈ specialCases then []
      else if hasDot name &&
          (stdlib.contains (firstSegment name) || pkgs.contains (firstSegment name)) then
        [(lineno, "H302: import each object from '" ++ firstSegment name ++ "' separately")]
      else []
  | .impFrom lineno level module names =>
    if level ≠ 0 then
      [(lineno, "H304: No relative imports. '" ++ ⟨List.replicate level '.'⟩ ++
        module.getD "" ++ "' is a relative import")]
    else if names.any (fun al => al.name == "*") then
      [(lineno, "H303: No wildcard (*) import.")]
    else if names.length > 1 then
      [(lineno, "H301: one import per line"),
       (lineno, "H302: import each object on its own line")]
    else []

/-- The `imports_list` of `process_imports`. -/
def importsList (nodes : List PyNode) (stdlib pkgs : List String) : List ImpItem :=
  nodes.flatMap (collectItems stdlib pkgs)

/-- The warnings list of `process_imports`. -/
def warningsList (nodes : List PyNode) (stdlib pkgs : List String) : List (Nat × String) :=
  nodes.flatMap (collectWarnings stdlib pkgs)

/-- The `category_order` dict of `process_imports` (a lookup in the three-key dict;
other keys never occur, since every item category comes from
`classify_import`). -/
def catOrder (c : String) : Nat :=
  if c = "stdlib" then 0 else if c = "third_party" then 1
  else if c = "project" then 2 else 3

/-- The sort key of `process_imports`:
`(category_order[cat], import_normalize(normalize_import(module, [name])).lower())`,
with the string compared by code points. -/
def sortKey (it : ImpItem) : Nat × List Char :=
  (catOrder it.cat,
   (import_normalize (normalize_import it.module [it.name])).data.map Char.toLower)

/-- Python comparison of the sort keys (tuple comparison, strings by code
points). -/
def keyLtB (a b : Nat × List Char) : Bool :=
  Nat.blt a.1 b.1 || (a.1 == b.1 && strLtB a.2 b.2)

/-- The non-strict ordering used by the model of Python's stable `sorted`. -/
def pyLe (a b : ImpItem) : Prop := keyLtB (sortKey b) (sortKey a) = false

instance : DecidableRel pyLe := fun a b =>
  inferInstanceAs (Decidable (keyLtB (sortKey b) (sortKey a) = false))

/-- The line emitted for one item: `normalize_import(module, [name])` for a
`from` item, `normalize_import('', [name])` otherwise. -/
def renderLine (it : ImpItem) : String :=
  if it.itype == "from" then normalize_import it.module [it.name]
  else normalize_import "" [it.name]

/-- One element of the output block: a normalized import line (tagged with the
item that produced it) or the blank separator between category groups. -/
inductive OutLine
  | sep
  | entry (it : ImpItem)
deriving DecidableEq

/-- The text of an output element. -/
def outRender : OutLine → String
  | .sep => ""
  | .entry it => renderLine it

/-- The emission loop of `process_imports`, producing the new block's lines:
skip already-seen `(category, module, name, import_type)` keys, insert a blank
line whenever the category changes, and append the normalized line. -/
def emitLines : List ImpItem → List ImpItem → Option String → List String
  | [], _, _ => []
  | it :: rest, seen, cur =>
    if it ∈ seen then emitLines rest seen cur
    else
      match cur with
      | none => renderLine it :: emitLines rest (it :: seen) (some it.cat)
      | some c =>
        if it.cat = c then renderLine it :: emitLines rest (it :: seen) (some it.cat)
        else "" :: renderLine it :: emitLines rest (it :: seen) (some it.cat)

/-- The same loop as `emitLines`, but remembering which item produced each
line; `emitLines = (emitAnn ...).map outRender` is proved below. -/
def emitAnn : List ImpItem → List ImpItem → Option String → List OutLine
  | [], _, _ => []
  | it :: rest, seen, cur =>
    if it ∈ seen then emitAnn rest seen cur
    else
      match cur with
      | none => .entry it :: emitAnn rest (it :: seen) (some it.cat)
      | some c =>
        if it.cat = c then .entry it :: emitAnn rest (it :: seen) (some it.cat)
        else .sep :: .entry it :: emitAnn rest (it :: seen) (some it.cat)

/-- Model of `future_imports ++ sorted(other_imports, key=...)`: the future items (in
first-seen order) prepended to the stable sort of the rest. -/
def sortedWithFutureFirst (nodes : List PyNode) (stdlib pkgs : List String) : List ImpItem :=
  let parts := (importsList nodes stdlib pkgs).partition (fun it => it.module == "__future__")
  parts.1 ++ List.insertionSort pyLe parts.2

/-- Model of `process_imports` from `core.py`: returns `(modified, new_import_lines,
warnings)`; `modified` is `True` whenever any import statement exists. -/
def process_imports (nodes : List PyNode) (stdlib pkgs : List String) :
    Bool × List String × List (Nat × String) :=
  let items := importsList nodes stdlib pkgs
  let warns := warningsList nodes stdlib pkgs
  if items = [] then (false, [], warns)
  else (true, emitLines (sortedWithFutureFirst nodes stdlib pkgs) [] none ++ [""], warns)

/-- Whether `line.strip()` starts with `'import '` or `'from '`. -/
def isImportLine (l : String) : Bool :=
  "import ".data.isPrefixOf (pyStripChars l.data) ||
  "from ".data.isPrefixOf (pyStripChars l.data)

/-- Whether `line.strip()` is empty. -/
def isBlankLine (l : String) : Bool := pyStripChars l.data == []

/-- The scan loop of `find_import_block` from `core.py`.  The state carries the
`(start, end)` pair once the first import line has been seen (Python's
`in_import_block` flag is equivalent to that state being set, since the flag is
never reset before the loop breaks).  An import line starts the span or extends
its end to the line after it; blank lines are skipped; the first other line
after the span has started stops the scan. -/
def fibAux : List String → Nat → Option (Nat × Nat) → Option (Nat × Nat)
  | [], _, st => st
  | l :: ls, i, st =>
    if isImportLine l then
      fibAux ls (i + 1) (some ((st.map Prod.fst).getD i, i + 1))
    else if isBlankLine l then
      fibAux ls (i + 1) st
    else
      match st with
      | some p => some p
      | none => fibAux ls (i + 1) none

/-- Model of `find_import_block` from `core.py`: the `(start, end)` span of the
run of import lines beginning at the first import line of the file. -/
def find_import_block (lines : List String) : Option (Nat × Nat) :=
  fibAux lines 0 none

/-- Model of `rewrite_imports` from `core.py`: `lines[:start] + new_imports + lines[end:]`. -/
def rewrite_imports (lines : List String) (start fin : Nat) (newImports : List String) :
    List String :=
  lines.take start ++ newImports ++ lines.drop fin

/-- The input that `process_file` obtains from the filesystem and the parser:
either reading the file failed, or parsing raised `SyntaxError` (with its
optional line number), or we have the file's lines (`source.splitlines()`)
together with the import statements of its AST. -/
inductive PyFile
  | readError (msg : String)
  | syntaxError (lineno : Option Nat) (msg : String)
  | parsed (lines : List String) (nodes : List PyNode)
deriving DecidableEq

/-- The observable outcome of `process_file`: the returned `(modified,
warnings)` pair, plus the lines written back to disk (`none` when the file is
not (re)written). -/
structure PFResult where
  modified : Bool
  warnings : List (Nat × String)
  written : Option (List String)
deriving DecidableEq

/-- Model of `process_file` from `core.py`.  `docRes` is the `(modified, warnings,
new_source.splitlines())` triple returned by the `process_docstrings`
collaborator (a separate module), and `writeOk`/`wmsg` model the outcome of
`path_obj.write_text`.  Line-length warnings are appended by the source to a
local list only after `warnings` has been copied from it, so they never appear
in the returned pair and are omitted here. -/
def process_file (input : PyFile) (stdlib pkgs : List String) (apply : Bool)
    (docRes : Bool × List (Nat × String) × List String)
    (writeOk : Bool) (wmsg : String) : PFResult :=
  match input with
  | .readError msg => ⟨false, [(0, "Could not read file: " ++ msg)], none⟩
  | .syntaxError lineno msg => ⟨false, [(lineno.getD 0, "Syntax error: " ++ msg)], none⟩
  | .parsed lines nodes =>
    let res := process_imports nodes stdlib pkgs
    let modified := res.1
    let newImportLines := res.2.1
    let importWarnings := res.2.2
    let docModified := docRes.1
    let docWarnings := docRes.2.1
    let docLines := docRes.2.2
    let allWarnings := importWarnings ++ docWarnings
    if modified = false ∧ docModified = false ∧ allWarnings = [] then
      ⟨false, [], none⟩
    else
      let block := find_import_block lines
      let warnings := allWarnings
      if apply then
        let newLines :=
          if docModified then
            match block, modified with
            | some (s, e), true => rewrite_imports docLines s e newImportLines
            | _, _ => docLines
          else
            match block, modified with
            | some (s, e), true => rewrite_imports lines s e newImportLines
            | _, _ => lines
        if writeOk then ⟨true, warnings, some newLines⟩
        else ⟨false, warnings ++ [(0, "Could not write file: " ++ wmsg)], none⟩
      else
        let warnings := warnings ++
          (if block.isSome ∧ modified then
            [((block.getD (0, 0)).1 + 1, "Import order/style is incorrect.")]
          else []) ++
          (if docModified then [(0, "Docstring formatting issues detected.")] else [])
        ⟨true, warnings, none⟩


theorem strLtB_iff : ∀ (as bs : List Char), strLtB as bs = true ↔ List.Lex (· < ·) as bs
  | [], [] => by
    simp only [strLtB]
    exact iff_of_false (by simp) (List.Lex.not_nil_right _ _)
  | [], _ :: _ => by
    simp only [strLtB]
    exact ⟨fun _ => List.Lex.nil, fun _ => by simp⟩
  | _ :: _, [] => by
    simp only [strLtB]
    exact iff_of_false (by simp) (List.Lex.not_nil_right _ _)
  | a :: as, b :: bs => by
    simp only [strLtB, charLtB, decide_eq_true_eq]
    rcases lt_trichotomy a b with hab | hab | hab
    · rw [if_pos hab]
      exact ⟨fun _ => List.Lex.rel hab, fun _ => by simp⟩
    · subst hab
      rw [if_neg (lt_irrefl a), if_neg (lt_irrefl a), strLtB_iff as bs]
      constructor
      · exact List.Lex.cons
      · intro h
        cases h with
        | cons h => exact h
        | rel h => exact absurd h (lt_irrefl a)
    · have hne : ¬ a < b := lt_asymm hab
      rw [if_neg hne, if_pos hab]
      refine iff_of_false (by simp) ?_
      intro h
      cases h with
      | cons h => exact absurd hab (lt_irrefl a)
      | rel h => exact absurd h hne

theorem strLtB_asymm {as bs : List Char} (h : strLtB as bs = true) : strLtB bs as = false := by
  rw [strLtB_iff] at h
  rw [← Bool.not_eq_true, strLtB_iff]
  exact asymm h

theorem strLtB_trans {as bs cs : List Char}
    (h1 : strLtB as bs = true) (h2 : strLtB bs cs = true) : strLtB as cs = true := by
  rw [strLtB_iff] at h1 h2 ⊢
  exact Trans.trans h1 h2

theorem strLtB_eq {as bs : List Char}
    (h1 : strLtB as bs = false) (h2 : strLtB bs as = false) : as = bs := by
  rcases trichotomous_of (List.Lex (· < · : Char → Char → Prop)) as bs with h | h | h
  · rw [← strLtB_iff] at h
    rw [h] at h1
    exact absurd h1 (by simp)
  · exact h
  · rw [← strLtB_iff] at h
    rw [h] at h2
    exact absurd h2 (by simp)

theorem keyLtB_asymm {a b : Nat × List Char} (h : keyLtB a b = true) : keyLtB b a = false := by
  simp only [keyLtB, Bool.or_eq_true, Bool.and_eq_true, beq_iff_eq, Nat.blt_eq] at h
  simp only [keyLtB, Bool.or_eq_false_iff, Bool.and_eq_false_iff]
  rcases h with h | ⟨heq, hs⟩
  · refine ⟨?_, Or.inl ?_⟩
    · rw [← Bool.not_eq_true, Nat.blt_eq]
      omega
    · simp only [beq_eq_false_iff_ne, ne_eq]
      omega
  · refine ⟨?_, Or.inr (strLtB_asymm hs)⟩
    rw [← Bool.not_eq_true, Nat.blt_eq]
    omega

theorem keyLtB_trans {a b c : Nat × List Char}
    (h1 : keyLtB a b = true) (h2 : keyLtB b c = true) : keyLtB a c = true := by
  simp only [keyLtB, Bool.or_eq_true, Bool.and_eq_true, beq_iff_eq, Nat.blt_eq] at h1 h2 ⊢
  rcases h1 with h1 | ⟨e1, s1⟩ <;> rcases h2 with h2 | ⟨e2, s2⟩
  · exact Or.inl (lt_trans h1 h2)
  · exact Or.inl (by omega)
  · exact Or.inl (by omega)
  · exact Or.inr ⟨by omega, strLtB_trans s1 s2⟩

theorem keyLtB_eq {a b : Nat × List Char}
    (h1 : keyLtB a b = false) (h2 : keyLtB b a = false) : a = b := by
  simp only [keyLtB, Bool.or_eq_false_iff, Bool.and_eq_false_iff, beq_eq_false_iff_ne,
    ne_eq] at h1 h2
  obtain ⟨hn1, h1'⟩ := h1
  obtain ⟨hn2, h2'⟩ := h2
  rw [← Bool.not_eq_true, Nat.blt_eq] at hn1 hn2
  have hfst : a.1 = b.1 := by omega
  have hsnd : a.2 = b.2 := by
    rcases h1' with h1' | h1'
    · exact absurd hfst h1'
    · rcases h2' with h2' | h2'
      · exact absurd hfst.symm h2'
      · exact strLtB_eq h1' h2'
  exact Prod.ext hfst hsnd

instance : IsTotal ImpItem pyLe := by
  constructor
  intro a b
  unfold pyLe
  cases h : keyLtB (sortKey b) (sortKey a)
  · exact Or.inl rfl
  · exact Or.inr (keyLtB_asymm h)

instance : IsTrans ImpItem pyLe := by
  constructor
  intro a b c h1 h2
  unfold pyLe at h1 h2 ⊢
  cases hca : keyLtB (sortKey c) (sortKey a)
  · rfl
  · exfalso
    cases hab : keyLtB (sortKey a) (sortKey b)
    · have heq : sortKey a = sortKey b := keyLtB_eq hab h1
      rw [heq] at hca
      rw [hca] at h2
      exact absurd h2 (by simp)
    · have := keyLtB_trans hca hab
      rw [this] at h2
      exact absurd h2 (by simp)

/-- The items of an output list, in emission order. -/
def annItems : List OutLine → List ImpItem
  | [] => []
  | .sep :: rest => annItems rest
  | .entry it :: rest => it :: annItems rest

theorem emitLines_eq_map (l : List ImpItem) (seen : List ImpItem) (cur : Option String) :
    emitLines l seen cur = (emitAnn l seen cur).map outRender := by
  induction l generalizing seen cur with
  | nil => rfl
  | cons it rest ih =>
    by_cases h : it ∈ seen
    · simp only [emitLines, emitAnn, if_pos h]
      exact ih _ _
    · cases cur with
      | none => simp [emitLines, emitAnn, h, outRender, ih]
      | some c =>
        by_cases hc : it.cat = c
        · simp [emitLines, emitAnn, h, hc, outRender, ih]
        · simp [emitLines, emitAnn, h, hc, outRender, ih]

theorem annItems_emitAnn_sublist (l : List ImpItem) (seen : List ImpItem) (cur : Option String) :
    (annItems (emitAnn l seen cur)).Sublist l := by
  induction l generalizing seen cur with
  | nil => simp [emitAnn, annItems]
  | cons it rest ih =>
    by_cases h : it ∈ seen
    · simp only [emitAnn, if_pos h]
      exact (ih _ _).trans (List.sublist_cons_self it rest)
    · cases cur with
      | none =>
        simp only [emitAnn, if_neg h, annItems]
        exact (ih (it :: seen) (some it.cat)).cons₂ it
      | some c =>
        by_cases hc : it.cat = c
        · simp only [emitAnn, if_neg h, if_pos hc, annItems]
          exact (ih (it :: seen) (some it.cat)).cons₂ it
        · simp only [emitAnn, if_neg h, if_neg hc, annItems]
          exact (ih (it :: seen) (some it.cat)).cons₂ it

/-- Adjacent emitted lines without a blank separator between them always carry
the same category: the blank-line bookkeeping of the emission loop. -/
def sepSeparatedB : Option String → List OutLine → Bool
  | _, [] => true
  | _, .sep :: rest => sepSeparatedB none rest
  | cur, .entry it :: rest =>
    (match cur with
     | none => true
     | some c => it.cat == c) && sepSeparatedB (some it.cat) rest

theorem emitAnn_sepSeparated (l : List ImpItem) (seen : List ImpItem) (cur : Option String) :
    sepSeparatedB cur (emitAnn l seen cur) = true := by
  induction l generalizing seen cur with
  | nil => cases cur <;> rfl
  | cons it rest ih =>
    by_cases h : it ∈ seen
    · simp only [emitAnn, if_pos h]
      exact ih _ _
    · cases cur with
      | none => simp [emitAnn, h, sepSeparatedB, ih]
      | some c =>
        by_cases hc : it.cat = c
        · simp [emitAnn, h, hc, sepSeparatedB, ih]
        · simp [emitAnn, h, hc, sepSeparatedB, ih]

/-- First-occurrence deduplication relative to an already-seen list: the order
in which the emission loop keeps duplicate keys. -/
def dedupKeep (seen : List ImpItem) : List ImpItem → List ImpItem
  | [] => []
  | it :: rest => if it ∈ seen then dedupKeep seen rest else it :: dedupKeep (it :: seen) rest

theorem mem_dedupKeep {it : ImpItem} :
    ∀ (l seen : List ImpItem), it ∈ l → it ∈ seen ∨ it ∈ dedupKeep seen l := by
  intro l
  induction l with
  | nil => intro seen h; cases h
  | cons x rest ih =>
    intro seen h
    simp only [dedupKeep]
    by_cases hx : x ∈ seen
    · rw [if_pos hx]
      rcases List.mem_cons.mp h with h | h
      · exact Or.inl (h ▸ hx)
      · exact ih seen h
    · rw [if_neg hx]
      rcases List.mem_cons.mp h with h | h
      · exact Or.inr (h ▸ List.mem_cons_self _ _)
      · rcases ih (x :: seen) h with h' | h'
        · rcases List.mem_cons.mp h' with h' | h'
          · exact Or.inr (h' ▸ List.mem_cons_self _ _)
          · exact Or.inl h'
        · exact Or.inr (List.mem_cons_of_mem _ h')

theorem emitAnn_futureBlock :
    ∀ (futs : List ImpItem) (rest seen : List ImpItem) (cur : Option String) (c : String),
    (∀ it ∈ futs, it.cat = c) → (cur = none ∨ cur = some c) →
    ∃ seen2 cur2, emitAnn (futs ++ rest) seen cur =
      (dedupKeep seen futs).map OutLine.entry ++ emitAnn rest seen2 cur2 := by
  intro futs
  induction futs with
  | nil => intro rest seen cur c _ _; exact ⟨seen, cur, by simp [dedupKeep]⟩
  | cons it futs ih =>
    intro rest seen cur c hcat hcur
    have hitc : it.cat = c := hcat it (List.mem_cons_self _ _)
    by_cases h : it ∈ seen
    · simp only [List.cons_append, emitAnn, dedupKeep, if_pos h]
      exact ih rest seen cur c (fun x hx => hcat x (List.mem_cons_of_mem _ hx)) hcur
    · have hrec := ih rest (it :: seen) (some it.cat) c
        (fun x hx => hcat x (List.mem_cons_of_mem _ hx)) (Or.inr (by rw [hitc]))
      obtain ⟨seen2, cur2, hrec⟩ := hrec
      rcases hcur with hcur | hcur
      · subst hcur
        refine ⟨seen2, cur2, ?_⟩
        simp only [List.cons_append, emitAnn, dedupKeep, if_neg h]
        simp [hrec]
      · subst hcur
        refine ⟨seen2, cur2, ?_⟩
        simp only [List.cons_append, emitAnn, dedupKeep, if_neg h, if_pos hitc]
        simp only [List.map_cons, List.cons_append]
        exact congrArg _ hrec

theorem collectItems_cat {stdlib pkgs : List String} {node : PyNode} {it : ImpItem}
    (h : it ∈ collectItems stdlib pkgs node) (hm : it.module ≠ "") :
    it.cat = classify_import it.module stdlib pkgs := by
  cases node with
  | imp lineno names =>
    simp only [collectItems, List.mem_flatMap] at h
    obtain ⟨al, _, h⟩ := h
    by_cases h1 : al.name ∈ specialCases
    · rw [if_pos h1] at h
      simp only [List.mem_singleton] at h
      subst h
      exact absurd rfl hm
    · rw [if_neg h1] at h
      by_cases h2 : (hasDot al.name &&
          (stdlib.contains (firstSegment al.name) || pkgs.contains (firstSegment al.name))) = true
      · rw [if_pos h2] at h
        simp only [List.mem_singleton] at h
        subst h
        rfl
      · rw [if_neg h2] at h
        simp only [List.mem_singleton] at h
        subst h
        exact absurd rfl hm
  | impFrom lineno level module names =>
    simp only [collectItems] at h
    by_cases h1 : level ≠ 0
    · rw [if_pos h1] at h
      cases h
    · rw [if_neg h1] at h
      by_cases h2 : names.any (fun al => al.name == "*") = true
      · rw [if_pos h2] at h
        cases h
      · rw [if_neg h2] at h
        simp only [List.mem_map] at h
        obtain ⟨al, _, h⟩ := h
        subst h
        rfl

theorem importsList_cat {nodes : List PyNode} {stdlib pkgs : List String} {it : ImpItem}
    (h : it ∈ importsList nodes stdlib pkgs) (hm : it.module ≠ "") :
    it.cat = classify_import it.module stdlib pkgs := by
  rw [importsList, List.mem_flatMap] at h
  obtain ⟨n, _, h⟩ := h
  exact collectItems_cat h hm

theorem pyLe_catOrder {a b : ImpItem} (h : pyLe a b) : catOrder a.cat ≤ catOrder b.cat := by
  unfold pyLe keyLtB at h
  simp only [Bool.or_eq_false_iff] at h
  have h1 := h.1
  rw [← Bool.not_eq_true, Nat.blt_eq] at h1
  exact le_of_not_lt h1

theorem pyLe_strLe {a b : ImpItem} (h : pyLe a b) (hcat : a.cat = b.cat) :
    strLtB (sortKey b).2 (sortKey a).2 = false := by
  unfold pyLe keyLtB at h
  simp only [Bool.or_eq_false_iff, Bool.and_eq_false_iff] at h
  rcases h.2 with h2 | h2
  · exfalso
    have : (sortKey b).1 = (sortKey a).1 := by
      show catOrder b.cat = catOrder a.cat
      rw [hcat]
    simp [this] at h2
  · exact h2

theorem sortedWithFutureFirst_pairwise_cat (nodes : List PyNode) (stdlib pkgs : List String)
    (hfut : classify_import "__future__" stdlib pkgs = "stdlib") :
    List.Pairwise (fun a b : ImpItem => catOrder a.cat ≤ catOrder b.cat)
      (sortedWithFutureFirst nodes stdlib pkgs) := by
  unfold sortedWithFutureFirst
  rw [List.partition_eq_filter_filter]
  simp only
  rw [List.pairwise_append]
  have hstd : ∀ a ∈ (importsList nodes stdlib pkgs).filter (fun it => it.module == "__future__"),
      a.cat = "stdlib" := by
    intro a ha
    have ha' := List.mem_filter.mp ha
    have hamod : a.module = "__future__" := by simpa using ha'.2
    rw [importsList_cat ha'.1 (by rw [hamod]; simp), hamod, hfut]
  refine ⟨?_, ?_, ?_⟩
  · apply List.pairwise_of_forall_mem_list
    intro a ha b hb
    rw [hstd a ha, hstd b hb]
  · exact (List.sorted_insertionSort pyLe _).imp (fun {a b} h => pyLe_catOrder h)
  · intro a ha b hb
    rw [hstd a ha]
    simp [catOrder]

theorem fibAux_start : ∀ (ls : List String) (i s0 e0 s e : Nat),
    fibAux ls i (some (s0, e0)) = some (s, e) → s = s0 := by
  intro ls
  induction ls with
  | nil =>
    intro i s0 e0 s e h
    simp only [fibAux, Option.some.injEq, Prod.mk.injEq] at h
    exact h.1.symm
  | cons l ls ih =>
    intro i s0 e0 s e h
    simp only [fibAux] at h
    by_cases h1 : isImportLine l = true
    · rw [if_pos h1] at h
      simpa using ih (i + 1) s0 (i + 1) s e h
    · rw [if_neg h1] at h
      by_cases h2 : isBlankLine l = true
      · rw [if_pos h2] at h
        exact ih (i + 1) s0 e0 s e h
      · rw [if_neg h2] at h
        simp only [Option.some.injEq, Prod.mk.injEq] at h
        exact h.1.symm

theorem fibAux_bounds : ∀ (ls : List String) (i : Nat) (st : Option (Nat × Nat)) (s e : Nat),
    (∀ s0 e0, st = some (s0, e0) → s0 < e0 ∧ e0 ≤ i) →
    fibAux ls i st = some (s, e) → s < e ∧ e ≤ i + ls.length := by
  intro ls
  induction ls with
  | nil =>
    intro i st s e hinv h
    simp only [fibAux] at h
    have := hinv s e h
    simpa using this
  | cons l ls ih =>
    intro i st s e hinv h
    simp only [fibAux] at h
    by_cases h1 : isImportLine l = true
    · rw [if_pos h1] at h
      have hres := ih (i + 1) (some ((st.map Prod.fst).getD i, i + 1)) s e ?_ h
      · constructor
        · exact hres.1
        · have := hres.2
          simp only [List.length_cons]
          omega
      · intro s0 e0 hst
        simp only [Option.some.injEq, Prod.mk.injEq] at hst
        obtain ⟨hs0, he0⟩ := hst
        refine ⟨?_, by omega⟩
        cases hstv : st with
        | none => subst hstv; simp at hs0; omega
        | some p =>
          obtain ⟨ps, pe⟩ := p
          have := hinv ps pe (by rw [hstv])
          subst hstv
          simp at hs0
          omega
    · rw [if_neg h1] at h
      by_cases h2 : isBlankLine l = true
      · rw [if_pos h2] at h
        have hres := ih (i + 1) st s e ?_ h
        · refine ⟨hres.1, ?_⟩
          have := hres.2
          simp only [List.length_cons]
          omega
        · intro s0 e0 hst
          have := hinv s0 e0 hst
          omega
      · rw [if_neg h2] at h
        cases hstv : st with
        | none =>
          subst hstv
          have hres := ih (i + 1) none s e (by intro s0 e0 hst; cases hst) h
          simp only [List.length_cons]
          omega
        | some p =>
          subst hstv
          simp only [Option.some.injEq] at h
          obtain ⟨ps, pe⟩ := p
          have := hinv ps pe rfl
          simp only [Prod.mk.injEq] at h
          simp only [List.length_cons]
          omega

theorem fibAux_first : ∀ (ls : List String) (i s e : Nat), fibAux ls i none = some (s, e) →
    ∃ k, s = i + k ∧ ∃ l, ls[k]? = some l ∧ isImportLine l = true ∧
      ∀ j l', j < k → ls[j]? = some l' → isImportLine l' = false := by
  intro ls
  induction ls with
  | nil => intro i s e h; cases h
  | cons l ls ih =>
    intro i s e h
    simp only [fibAux] at h
    by_cases h1 : isImportLine l = true
    · rw [if_pos h1] at h
      have hs := fibAux_start ls (i + 1) i (i + 1) s e h
      refine ⟨0, by omega, l, by simp, h1, ?_⟩
      intro j l' hj
      omega
    · rw [if_neg h1] at h
      have h' : fibAux ls (i + 1) none = some (s, e) := by
        by_cases h2 : isBlankLine l = true
        · rwa [if_pos h2] at h
        · rwa [if_neg h2] at h
      obtain ⟨k, hk, l2, hl2, himp, hprev⟩ := ih (i + 1) s e h'
      refine ⟨k + 1, by omega, l2, by simpa using hl2, himp, ?_⟩
      intro j l' hj hget
      cases j with
      | zero =>
        simp only [List.getElem?_cons_zero, Option.some.injEq] at hget
        subst hget
        simpa using h1
      | succ j =>
        simp only [List.getElem?_cons_succ] at hget
        exact hprev j l' (by omega) hget

theorem fibAux_span : ∀ (ls : List String) (i : Nat) (st : Option (Nat × Nat)) (s e : Nat),
    (∀ s0 e0, st = some (s0, e0) → e0 ≤ i) →
    fibAux ls i st = some (s, e) →
    ∀ j, i ≤ j → s ≤ j → j < e →
      ∃ l, ls[j - i]? = some l ∧ (isImportLine l = true ∨ isBlankLine l = true) := by
  intro ls
  induction ls with
  | nil =>
    intro i st s e hinv h j hij hsj hje
    simp only [fibAux] at h
    have := hinv s e h
    omega
  | cons l ls ih =>
    intro i st s e hinv h j hij hsj hje
    simp only [fibAux] at h
    by_cases h1 : isImportLine l = true
    · rw [if_pos h1] at h
      by_cases hji : j = i
      · subst hji
        exact ⟨l, by simp, Or.inl h1⟩
      · have hij1 : i + 1 ≤ j := by omega
        have hinv2 : ∀ s0 e0, (some ((st.map Prod.fst).getD i, i + 1)) = some (s0, e0) →
            e0 ≤ i + 1 := by
          intro s0 e0 hst
          simp only [Option.some.injEq, Prod.mk.injEq] at hst
          omega
        obtain ⟨l2, hl2, hcase⟩ := ih (i + 1) _ s e hinv2 h j hij1 hsj hje
        refine ⟨l2, ?_, hcase⟩
        have hshift : j - i = (j - (i + 1)) + 1 := by omega
        rw [hshift, List.getElem?_cons_succ]
        exact hl2
    · rw [if_neg h1] at h
      by_cases h2 : isBlankLine l = true
      · rw [if_pos h2] at h
        by_cases hji : j = i
        · subst hji
          exact ⟨l, by simp, Or.inr h2⟩
        · have hij1 : i + 1 ≤ j := by omega
          have hinv2 : ∀ s0 e0, st = some (s0, e0) → e0 ≤ i + 1 := by
            intro s0 e0 hst
            have := hinv s0 e0 hst
            omega
          obtain ⟨l2, hl2, hcase⟩ := ih (i + 1) st s e hinv2 h j hij1 hsj hje
          refine ⟨l2, ?_, hcase⟩
          have hshift : j - i = (j - (i + 1)) + 1 := by omega
          rw [hshift, List.getElem?_cons_succ]
          exact hl2
      · rw [if_neg h2] at h
        cases hstv : st with
        | none =>
          subst hstv
          obtain ⟨k, hk, _⟩ := fibAux_first ls (i + 1) s e h
          by_cases hji : j = i
          · omega
          · have hij1 : i + 1 ≤ j := by omega
            obtain ⟨l2, hl2, hcase⟩ :=
              ih (i + 1) none s e (by intro s0 e0 hst; cases hst) h j hij1 hsj hje
            refine ⟨l2, ?_, hcase⟩
            have hshift : j - i = (j - (i + 1)) + 1 := by omega
            rw [hshift, List.getElem?_cons_succ]
            exact hl2
        | some p =>
          subst hstv
          obtain ⟨ps, pe⟩ := p
          simp only [Option.some.injEq, Prod.mk.injEq] at h
          have := hinv ps pe rfl
          omega

theorem find_import_block_sound (lines : List String) (s e : Nat)
    (h : find_import_block lines = some (s, e)) :
    s < e ∧ e ≤ lines.length ∧
    (∃ l, lines[s]? = some l ∧ isImportLine l = true) ∧
    (∀ j l, j < s → lines[j]? = some l → isImportLine l = false) ∧
    (∀ j, s ≤ j → j < e →
      ∃ l, lines[j]? = some l ∧ (isImportLine l = true ∨ isBlankLine l = true)) := by
  have hb := fibAux_bounds lines 0 none s e (by intro s0 e0 h0; cases h0) h
  obtain ⟨k, hk, l, hl, himp, hprev⟩ := fibAux_first lines 0 s e h
  have hks : k = s := by omega
  rw [hks] at hl hprev
  refine ⟨hb.1, by simpa using hb.2, ⟨l, hl, himp⟩, ?_, ?_⟩
  · intro j l' hj hget
    exact hprev j l' hj hget
  · intro j hsj hje
    have := fibAux_span lines 0 none s e (by intro s0 e0 h0; cases h0) h j (Nat.zero_le j) hsj hje
    simpa using this

/-- Claim C3, counterexample.  The claim says a first dotted segment belonging to
both `project_set` and `stdlib_set` is classified as project.  On the code the
stdlib check comes first: a module whose root is in both sets is classified
`"stdlib"`, not `"project"`. -/
theorem c3_counterexample_stdlib_wins_over_project :
    classify_import "os" ["os"] ["os"] = "stdlib" ∧ "stdlib" ≠ "project" := by decide

/-- Claim C3, amended.  `classify_import` gives `stdlib_set` precedence over
`project_set` when the first dotted segment is in both; a root in the project
set but not in the stdlib set is classified project; a root in neither set is
classified third-party. -/
theorem c3_classify_precedence_amended (module : String) (stdlib pkgs : List String) :
    (stdlib.contains (if module = "" then "" else firstSegment module) = true →
      classify_import module stdlib pkgs = "stdlib") ∧
    (stdlib.contains (if module = "" then "" else firstSegment module) = false →
      pkgs.contains (if module = "" then "" else firstSegment module) = true →
      classify_import module stdlib pkgs = "project") ∧
    (stdlib.contains (if module = "" then "" else firstSegment module) = false →
      pkgs.contains (if module = "" then "" else firstSegment module) = false →
      classify_import module stdlib pkgs = "third_party") := by
  unfold classify_import
  refine ⟨fun h1 => ?_, fun h1 h2 => ?_, fun h1 h2 => ?_⟩
  · have h1' : (if module = "" then "" else firstSegment module) ∈ stdlib := by simpa using h1
    simp [h1']
  · have h1' : (if module = "" then "" else firstSegment module) ∉ stdlib := by simpa using h1
    have h2' : (if module = "" then "" else firstSegment module) ∈ pkgs := by simpa using h2
    simp [h1', h2']
  · have h1' : (if module = "" then "" else firstSegment module) ∉ stdlib := by simpa using h1
    have h2' : (if module = "" then "" else firstSegment module) ∉ pkgs := by simpa using h2
    simp [h1', h2']

/-- Witness for C3's amended theorem at concrete inputs. -/
theorem c3_classify_precedence_amended_witness :
    classify_import "os.path" ["os"] ["mypkg"] = "stdlib" ∧
    classify_import "mypkg.mod" ["os"] ["mypkg"] = "project" ∧
    classify_import "requests" ["os"] ["mypkg"] = "third_party" :=
  ⟨(c3_classify_precedence_amended "os.path" ["os"] ["mypkg"]).1 (by decide),
   (c3_classify_precedence_amended "mypkg.mod" ["os"] ["mypkg"]).2.1 (by decide) (by decide),
   (c3_classify_precedence_amended "requests" ["os"] ["mypkg"]).2.2 (by decide) (by decide)⟩

/-- Claim C10.  `classify_import` is total and always returns one of the three
category strings; for the empty module name, when the empty string belongs to
neither set, the result is the third-party category. -/
theorem c10_classify_total_three_values (module : String) (stdlib pkgs : List String) :
    (classify_import module stdlib pkgs = "stdlib" ∨
     classify_import module stdlib pkgs = "project" ∨
     classify_import module stdlib pkgs = "third_party") ∧
    (stdlib.contains "" = false → pkgs.contains "" = false →
      classify_import "" stdlib pkgs = "third_party") := by
  constructor
  · unfold classify_import
    by_cases h1 : (if module = "" then "" else firstSegment module) ∈ stdlib
    · exact Or.inl (by simp [h1])
    · by_cases h2 : (if module = "" then "" else firstSegment module) ∈ pkgs
      · exact Or.inr (Or.inl (by simp [h1, h2]))
      · exact Or.inr (Or.inr (by simp [h1, h2]))
  · intro h1 h2
    have h1' : "" ∉ stdlib := by simpa using h1
    have h2' : "" ∉ pkgs := by simpa using h2
    unfold classify_import
    simp [h1', h2']

/-- Witness for C10 at concrete inputs, including the empty module name. -/
theorem c10_classify_total_three_values_witness :
    classify_import "" ["os"] ["mypkg"] = "third_party" ∧
    (classify_import "x" ["os"] ["mypkg"] = "stdlib" ∨
     classify_import "x" ["os"] ["mypkg"] = "project" ∨
     classify_import "x" ["os"] ["mypkg"] = "third_party") :=
  ⟨(c10_classify_total_three_values "" ["os"] ["mypkg"]).2 (by decide) (by decide),
   (c10_classify_total_three_values "x" ["os"] ["mypkg"]).1⟩

/-- Claim C9.  `process_file` never propagates an exception: a read (or decode)
failure yields `modified = false` with exactly one diagnostic warning, and a
parse failure yields `modified = false` with exactly one syntax-error warning
carrying the reported line number (0 when none is reported); in both cases the
file is not written. -/
theorem c9_process_file_error_handling (stdlib pkgs : List String) (apply : Bool)
    (docRes : Bool × List (Nat × String) × List String) (writeOk : Bool) (wmsg : String)
    (msg : String) (l : Nat) (m : String) :
    process_file (.readError msg) stdlib pkgs apply docRes writeOk wmsg =
      ⟨false, [(0, "Could not read file: " ++ msg)], none⟩ ∧
    process_file (.syntaxError (some l) m) stdlib pkgs apply docRes writeOk wmsg =
      ⟨false, [(l, "Syntax error: " ++ m)], none⟩ ∧
    process_file (.syntaxError none m) stdlib pkgs apply docRes writeOk wmsg =
      ⟨false, [(0, "Syntax error: " ++ m)], none⟩ :=
  ⟨rfl, rfl, rfl⟩

/-- Claim C6, counterexample.  The claim says that when the first non-blank line
is not an import, a later import (after other statements) is not part of the
returned span.  On the code the locator skips any leading non-import lines and
starts the block at the first import line wherever it occurs: here the import
at index 1 follows the statement `x = 1` and the returned span `[1, 2)`
contains it. -/
theorem c6_counterexample_block_after_statement :
    isImportLine "x = 1" = false ∧ isBlankLine "x = 1" = false ∧
    isImportLine "import os" = true ∧
    find_import_block ["x = 1", "import os"] = some (1, 2) ∧
    1 < 2 := by decide

/-- Claim C6, amended.  `find_import_block` starts the span at the first import
line of the file, even when other statements precede it; the span contains
only import or blank lines; and any import that follows an interrupting line
occurring after the span's start lies at or beyond the span's end, hence
outside the span. -/
theorem c6_block_locator_amended (lines : List String) (s e : Nat)
    (h : find_import_block lines = some (s, e)) :
    (∃ l, lines[s]? = some l ∧ isImportLine l = true) ∧
    (∀ j l, j < s → lines[j]? = some l → isImportLine l = false) ∧
    (∀ j, s ≤ j → j < e →
      ∃ l, lines[j]? = some l ∧ (isImportLine l = true ∨ isBlankLine l = true)) ∧
    (∀ k j lk lj, s < k → k < j → lines[k]? = some lk → isImportLine lk = false →
      isBlankLine lk = false → lines[j]? = some lj → isImportLine lj = true → e ≤ j) := by
  obtain ⟨hlt, hle, hstart, hprefix, hspan⟩ := find_import_block_sound lines s e h
  refine ⟨hstart, hprefix, hspan, ?_⟩
  intro k j lk lj hsk hkj hgk hki hkb hgj hji
  by_contra hje
  push_neg at hje
  obtain ⟨l', hl', hcase⟩ := hspan k (le_of_lt hsk) (by omega)
  rw [hgk] at hl'
  obtain rfl : lk = l' := by injection hl'
  rcases hcase with hc | hc
  · rw [hc] at hki; cases hki
  · rw [hc] at hkb; cases hkb

/-- Witness for C6's amended theorem: a file whose block is the run
`import b / blank / import a` starting at index 1, with a later `import c`
separated by the statement `y = 2` excluded from the span. -/
theorem c6_block_locator_amended_witness :
    ∃ l, (["x = 1", "import b", "", "import a", "y = 2", "import c"] : List String)[1]? =
      some l ∧ isImportLine l = true :=
  (c6_block_locator_amended ["x = 1", "import b", "", "import a", "y = 2", "import c"] 1 4
    (by decide)).1

/-- Claim C2, counterexample.  The claim's universal frame property fails when
the H405 docstring collaborator also modifies the file: `process_file` locates
the import block on the ORIGINAL lines (here `(2, 3)`) but splices the new
block into the docstring-shifted lines at those stale indices.  For a module
docstring `"""Summary / body."""` followed by `import os`, the written file
loses the line `body."""` entirely (a line before the block's start), keeps a
stray `"""` and a duplicated `import os`, and the suffix after the block's end
is shifted — lines outside the located block do not reappear unchanged. -/
theorem c2_counterexample_docstring_rewrite_clobbers :
    find_import_block ["\"\"\"Summary", "body.\"\"\"", "import os", "", "x = 1"] =
      some (2, 3) ∧
    process_file
      (.parsed ["\"\"\"Summary", "body.\"\"\"", "import os", "", "x = 1"]
        [.imp 3 [⟨"os", none⟩]])
      ["os"] [] true
      (true, [(1, "H405: multi-line docstring summary not separated with an empty line")],
       ["\"\"\"Summary", "", "body.", "\"\"\"", "import os", "", "x = 1"]) true "" =
      ⟨true, [(1, "H405: multi-line docstring summary not separated with an empty line")],
       some ["\"\"\"Summary", "", "import os", "", "\"\"\"", "import os", "", "x = 1"]⟩ ∧
    (["\"\"\"Summary", "", "import os", "", "\"\"\"", "import os", "", "x = 1"] :
        List String).take 2 ≠
      (["\"\"\"Summary", "body.\"\"\"", "import os", "", "x = 1"] : List String).take 2 ∧
    "body.\"\"\"" ∉
      (["\"\"\"Summary", "", "import os", "", "\"\"\"", "import os", "", "x = 1"] :
        List String) ∧
    (["\"\"\"Summary", "", "import os", "", "\"\"\"", "import os", "", "x = 1"] :
        List String).drop (2 + 2) ≠
      (["\"\"\"Summary", "body.\"\"\"", "import os", "", "x = 1"] : List String).drop 3 := by
  decide

/-- Claim C2, amended.  When the docstring collaborator reports no change,
`process_file` in apply mode writes exactly `lines[:start] + new_imports +
lines[end:]`: every line before the located block's start and every line after
its end reappears unchanged, in order, in the written file.  (When an H405
docstring fix is applied as well, the import rewrite is spliced into the
docstring-shifted lines at block indices computed from the original lines, and
lines outside the block can be lost — see the counterexample.) -/
theorem c2_apply_rewrites_only_import_block (lines : List String) (nodes : List PyNode)
    (stdlib pkgs : List String) (docWarnings : List (Nat × String)) (docLines : List String)
    (wmsg : String) (s e : Nat) (newLines : List String) (importWarnings : List (Nat × String))
    (hblock : find_import_block lines = some (s, e))
    (hpi : process_imports nodes stdlib pkgs = (true, newLines, importWarnings)) :
    process_file (.parsed lines nodes) stdlib pkgs true (false, docWarnings, docLines) true wmsg =
      ⟨true, importWarnings ++ docWarnings,
       some (lines.take s ++ newLines ++ lines.drop e)⟩ ∧
    (lines.take s ++ newLines ++ lines.drop e).take s = lines.take s ∧
    (lines.take s ++ newLines ++ lines.drop e).drop (s + newLines.length) = lines.drop e := by
  have hs : s ≤ lines.length := by
    have := find_import_block_sound lines s e hblock
    omega
  have hlen : (lines.take s).length = s := by
    rw [List.length_take]
    omega
  refine ⟨?_, ?_, ?_⟩
  · simp [process_file, hpi, hblock, rewrite_imports]
  · set A := lines.take s with hA
    rw [List.append_assoc, ← hlen, List.take_left]
  · have hdrop : s + newLines.length = (lines.take s ++ newLines).length := by
      rw [List.length_append, hlen]
    set A := lines.take s with hA
    rw [hdrop, List.drop_left]

/-- Witness for C2 at a concrete file: block `[0, 2)` is replaced, the blank
line and the trailing statement are preserved. -/
theorem c2_apply_rewrites_only_import_block_witness :
    process_file (.parsed ["import b", "import a", "", "x = 1"]
        [.imp 1 [⟨"b", none⟩], .imp 2 [⟨"a", none⟩]])
      ["a", "b"] [] true (false, [], []) true "w" =
      ⟨true, [],
       some ((["import b", "import a", "", "x = 1"] : List String).take 0 ++
         ["import a", "import b", ""] ++
         (["import b", "import a", "", "x = 1"] : List String).drop 2)⟩ :=
  (c2_apply_rewrites_only_import_block ["import b", "import a", "", "x = 1"]
    [.imp 1 [⟨"b", none⟩], .imp 2 [⟨"a", none⟩]] ["a", "b"] [] [] [] "w" 0 2
    ["import a", "import b", ""] [] (by decide) (by decide)).1

/-- Claim C1, evaluation at the failing input.  A file whose import block is
already grouped, sorted and deduplicated — the block that `process_imports`
recomputes equals the block already present in the file (`lines.take 4`, the
three imports plus the blank separator) — is still reported `modified = true` with an
"Import order/style is incorrect." warning: `process_imports` returns
`modified = True` whenever any import exists, it never compares against the
original text. -/
theorem c1_process_file_flags_already_sorted_file :
    process_imports
        [.imp 1 [⟨"logging", none⟩], .imp 2 [⟨"os", none⟩], .imp 3 [⟨"sys", none⟩]]
        ["logging", "os", "sys"] [] =
      (true,
       (["import logging", "import os", "import sys", "", "x = 1"] : List String).take 4,
       []) ∧
    process_file
      (.parsed ["import logging", "import os", "import sys", "", "x = 1"]
        [.imp 1 [⟨"logging", none⟩], .imp 2 [⟨"os", none⟩], .imp 3 [⟨"sys", none⟩]])
      ["logging", "os", "sys"] [] false
      (false, [], ["import logging", "import os", "import sys", "", "x = 1"]) true "" =
      ⟨true, [(1, "Import order/style is incorrect.")], none⟩ := by decide

/-- Claim C4, evaluation at the failing input.  Fixing `import os` produces
`import os` plus a trailing blank line; fixing the result changes it again
(one more blank line accumulates, because the block's end excludes the blank
line while the rewritten block appends one), so `fix (fix x) ≠ fix x`; and the
second run still reports `modified = true`. -/
theorem c4_fix_not_idempotent_eval :
    process_file (.parsed ["import os"] [.imp 1 [⟨"os", none⟩]]) ["os"] [] true
        (false, [], ["import os"]) true "" =
      ⟨true, [], some ["import os", ""]⟩ ∧
    process_file (.parsed ["import os", ""] [.imp 1 [⟨"os", none⟩]]) ["os"] [] true
        (false, [], ["import os", ""]) true "" =
      ⟨true, [], some ["import os", "", ""]⟩ ∧
    (["import os", "", ""] : List String) ≠ ["import os", ""] ∧
    (process_file (.parsed ["import os", ""] [.imp 1 [⟨"os", none⟩]]) ["os"] [] false
        (false, [], ["import os", ""]) true "").modified = true := by decide

/-- Claim C8, counterexample.  The sort key is the hacking projection
(`import_normalize`), not the emitted line: `import os` sorts before
`from os import path` (keys `import os` < `import os.path`), yet the emitted
canonical lines themselves are in strictly decreasing case-insensitive order
(`"from ..." < "import ..."`) within the same stdlib group (no blank line
between them), refuting non-decrease of the canonical strings as emitted. -/
theorem c8_counterexample_emitted_lines_not_sorted :
    process_imports [.imp 1 [⟨"os.path", none⟩], .imp 2 [⟨"os", none⟩]] ["os"] [] =
      (true, ["import os", "from os import path", ""],
       [(1, "H302: import each object from 'os' separately")]) ∧
    strLtB ("from os import path".data.map Char.toLower)
      ("import os".data.map Char.toLower) = true := by decide

/-- Claim C8, amended.  Within each category group of the rewritten block
(future imports excepted — they are prepended unsorted), the emitted lines are
non-decreasing under case-insensitive comparison of their `import_normalize`
projections (the hacking sort key), which treats `from x import y` as
`import x.y`. -/
theorem c8_alphabetical_invariant_amended (nodes : List PyNode) (stdlib pkgs : List String)
    (hne : importsList nodes stdlib pkgs ≠ []) :
    (process_imports nodes stdlib pkgs).2.1 =
      (emitAnn (sortedWithFutureFirst nodes stdlib pkgs) [] none).map outRender ++ [""] ∧
    List.Pairwise
      (fun a b : ImpItem => a.module ≠ "__future__" → b.module ≠ "__future__" →
        a.cat = b.cat → strLtB (sortKey b).2 (sortKey a).2 = false)
      (annItems (emitAnn (sortedWithFutureFirst nodes stdlib pkgs) [] none)) := by
  constructor
  · simp only [process_imports, if_neg hne]
    rw [emitLines_eq_map]
  · have hpair : List.Pairwise
        (fun a b : ImpItem => a.module ≠ "__future__" → b.module ≠ "__future__" →
          a.cat = b.cat → strLtB (sortKey b).2 (sortKey a).2 = false)
        (sortedWithFutureFirst nodes stdlib pkgs) := by
      unfold sortedWithFutureFirst
      rw [List.partition_eq_filter_filter, List.pairwise_append]
      refine ⟨?_, ?_, ?_⟩
      · apply List.pairwise_of_forall_mem_list
        intro a ha b hb hma
        have := (List.mem_filter.mp ha).2
        exact absurd (by simpa using this) hma
      · refine (List.sorted_insertionSort pyLe _).imp ?_
        intro a b h hma hmb hcat
        exact pyLe_strLe h hcat
      · intro a ha b hb hma
        have := (List.mem_filter.mp ha).2
        exact absurd (by simpa using this) hma
    exact hpair.sublist (annItems_emitAnn_sublist _ _ _)

/-- Witness for C8's amended theorem at a concrete two-import file. -/
theorem c8_alphabetical_invariant_amended_witness :
    (process_imports [.imp 1 [⟨"b", none⟩], .imp 2 [⟨"a", none⟩]] ["a", "b"] []).2.1 =
      (emitAnn (sortedWithFutureFirst [.imp 1 [⟨"b", none⟩], .imp 2 [⟨"a", none⟩]]
        ["a", "b"] []) [] none).map outRender ++ [""] :=
  (c8_alphabetical_invariant_amended [.imp 1 [⟨"b", none⟩], .imp 2 [⟨"a", none⟩]]
    ["a", "b"] [] (by decide)).1

/-- Claim C7.  In every rewritten block (with `'__future__'` classifying as
stdlib, as it does under the stdlib set the tool discovers), the emitted items'
categories are non-decreasing in the fixed order stdlib < third-party <
project, and lines of different categories are always separated by a blank
line (adjacent lines without a separator share their category). -/
theorem c7_category_order_invariant (nodes : List PyNode) (stdlib pkgs : List String)
    (hfut : classify_import "__future__" stdlib pkgs = "stdlib")
    (hne : importsList nodes stdlib pkgs ≠ []) :
    (process_imports nodes stdlib pkgs).2.1 =
      (emitAnn (sortedWithFutureFirst nodes stdlib pkgs) [] none).map outRender ++ [""] ∧
    List.Pairwise (fun a b : ImpItem => catOrder a.cat ≤ catOrder b.cat)
      (annItems (emitAnn (sortedWithFutureFirst nodes stdlib pkgs) [] none)) ∧
    sepSeparatedB none (emitAnn (sortedWithFutureFirst nodes stdlib pkgs) [] none) = true := by
  refine ⟨?_, ?_, ?_⟩
  · simp only [process_imports, if_neg hne]
    rw [emitLines_eq_map]
  · exact (sortedWithFutureFirst_pairwise_cat nodes stdlib pkgs hfut).sublist
      (annItems_emitAnn_sublist _ _ _)
  · exact emitAnn_sepSeparated _ _ _

/-- Witness for C7 at a concrete file mixing stdlib and third-party imports. -/
theorem c7_category_order_invariant_witness :
    List.Pairwise (fun a b : ImpItem => catOrder a.cat ≤ catOrder b.cat)
      (annItems (emitAnn (sortedWithFutureFirst
        [.imp 1 [⟨"requests", none⟩], .imp 2 [⟨"os", none⟩]]
        ["os", "__future__"] []) [] none)) ∧
    sepSeparatedB none (emitAnn (sortedWithFutureFirst
      [.imp 1 [⟨"requests", none⟩], .imp 2 [⟨"os", none⟩]]
      ["os", "__future__"] []) [] none) = true :=
  ⟨(c7_category_order_invariant [.imp 1 [⟨"requests", none⟩], .imp 2 [⟨"os", none⟩]]
      ["os", "__future__"] [] (by decide) (by decide)).2.1,
   (c7_category_order_invariant [.imp 1 [⟨"requests", none⟩], .imp 2 [⟨"os", none⟩]]
      ["os", "__future__"] [] (by decide) (by decide)).2.2⟩

/-- Claim C5, counterexample.  A `from __future__ import a, b` declaration does
trigger violation warnings on the code (H301 and H302), contradicting the
claim that future declarations trigger no violation warnings; the names
themselves are still kept first in the block. -/
theorem c5_counterexample_multiname_future_warns :
    process_imports
        [.impFrom 1 0 (some "__future__") [⟨"annotations", none⟩, ⟨"division", none⟩]]
        ["__future__"] [] =
      (true,
       ["from __future__ import annotations", "from __future__ import division", ""],
       [(1, "H301: one import per line"), (1, "H302: import each object on its own line")]) ∧
    ((1, "H301: one import per line") :: [(1, "H302: import each object on its own line")]) ≠
      ([] : List (Nat × String)) := by decide

/-- Claim C5, amended.  Level-0 `from __future__` declarations are excluded
from the category/alphabetical reordering and their (deduplicated, first-seen
order) lines form a prefix of the rewritten block; none of them is dropped;
and a future declaration importing a single non-wildcard name triggers no
warnings — but multi-name future declarations still trigger H301/H302 (see the
counterexample). -/
theorem c5_future_first_never_dropped_amended (nodes : List PyNode) (stdlib pkgs : List String) :
    (∃ tail, (process_imports nodes stdlib pkgs).2.1 =
      (dedupKeep [] ((importsList nodes stdlib pkgs).filter
        (fun it => it.module == "__future__"))).map renderLine ++ tail) ∧
    (∀ it ∈ (importsList nodes stdlib pkgs).filter (fun it => it.module == "__future__"),
      renderLine it ∈ (dedupKeep [] ((importsList nodes stdlib pkgs).filter
        (fun it => it.module == "__future__"))).map renderLine) ∧
    (∀ (lineno : Nat) (name : String) (asname : Option String), name ≠ "*" →
      collectWarnings stdlib pkgs (.impFrom lineno 0 (some "__future__") [⟨name, asname⟩]) =
        []) := by
  refine ⟨?_, ?_, ?_⟩
  · by_cases hne : importsList nodes stdlib pkgs = []
    · refine ⟨[], ?_⟩
      simp [process_imports, hne, dedupKeep]
    · have hcat : ∀ it ∈ (importsList nodes stdlib pkgs).filter
          (fun it => it.module == "__future__"),
          it.cat = classify_import "__future__" stdlib pkgs := by
        intro it hit
        have h1 := (List.mem_filter.mp hit).1
        have h2 : it.module = "__future__" := by simpa using (List.mem_filter.mp hit).2
        rw [importsList_cat h1 (by rw [h2]; simp), h2]
      obtain ⟨seen2, cur2, hpre⟩ := emitAnn_futureBlock
        ((importsList nodes stdlib pkgs).filter (fun it => it.module == "__future__"))
        (List.insertionSort pyLe ((importsList nodes stdlib pkgs).filter
          (not ∘ fun it => it.module == "__future__")))
        [] none (classify_import "__future__" stdlib pkgs) hcat (Or.inl rfl)
      refine ⟨(emitAnn (List.insertionSort pyLe ((importsList nodes stdlib pkgs).filter
        (not ∘ fun it => it.module == "__future__"))) seen2 cur2).map outRender ++ [""], ?_⟩
      simp only [process_imports, if_neg hne]
      rw [emitLines_eq_map]
      unfold sortedWithFutureFirst
      rw [List.partition_eq_filter_filter]
      simp only
      rw [hpre]
      simp [outRender, Function.comp]
  · intro it hit
    rcases mem_dedupKeep _ [] hit with h | h
    · cases h
    · exact List.mem_map_of_mem renderLine h
  · intro lineno name asname hname
    simp [collectWarnings, hname]

/-- Witness for C5's amended theorem: a file with one stdlib import and one
single-name future import. -/
theorem c5_future_first_never_dropped_amended_witness :
    collectWarnings ["os", "__future__"] []
      (.impFrom 2 0 (some "__future__") [⟨"annotations", none⟩]) = [] :=
  (c5_future_first_never_dropped_amended
    [.imp 1 [⟨"os", none⟩], .impFrom 2 0 (some "__future__") [⟨"annotations", none⟩]]
    ["os", "__future__"] []).2.2 2 "annotations" none (by decide)
